import Mathlib

/-!
Shallow embedding of the model-registry repository: `ModelRegistry`
(model_registry.py), the storage and metadata backends
(storage_backends.py) and the SQLite metadata engine
(database/database_manager.py).

Python dicts are embedded as insertion-ordered association lists; the
aliasing between the Registry's in-memory index and the database
backend's `_current_metadata` snapshot (both hold references to the same
list objects) is modelled with an explicit heap of list objects.
-/

namespace ModelReg

/-- Python values that occur as tag values in this repository: strings and
integers are the only shapes the claims exercise. -/
inductive PyVal where
  | str (s : String)
  | int (n : Nat)
deriving DecidableEq, Repr

/-- Embedding of Python `str(value)` on tag values. -/
def pyStr : PyVal → String
  | .str s => s
  | .int n => toString n

/-- Character for a decimal digit, `Char.ofNat (48 + d)`. -/
def digitChar (d : Nat) : Char := Char.ofNat (48 + d)

/-- Decimal digits of a natural number, most significant first; the fuel
argument (always called with at least `n + 1`) makes the recursion
structural so the kernel can evaluate it. -/
def natDigitsAux : Nat → Nat → List Char
  | 0, _ => []
  | fuel + 1, n =>
      if n < 10 then [digitChar n]
      else natDigitsAux fuel (n / 10) ++ [digitChar (n % 10)]

/-- Decimal digits of a natural number, most significant first. -/
def natDigits (n : Nat) : List Char := natDigitsAux (n + 1) n

/-- Embedding of Python `str(n)` for a natural number. -/
def natToString (n : Nat) : String := String.mk (natDigits n)

/-- Numeric value of a decimal digit character, `none` otherwise. -/
def charDigit (c : Char) : Option Nat :=
  if 48 ≤ c.toNat ∧ c.toNat ≤ 57 then some (c.toNat - 48) else none

/-- Left fold accumulating a decimal number; any non-digit poisons the
result. -/
def parseNatCore (l : List Char) : Option Nat :=
  l.foldl (fun acc c =>
    match acc, charDigit c with
    | some n, some d => some (n * 10 + d)
    | _, _ => none) (some 0)

/-- Embedding of Python `int(s)` on the non-negative decimal strings this
program feeds it (version strings it produced itself); `none` models the
`ValueError` on other inputs. -/
def parseNat (s : String) : Option Nat :=
  match s.data with
  | [] => none
  | _ => parseNatCore s.data

/-- Numeric value of a version string as the registry compares them; the
registry only applies `int` to decimal strings, where `parseNat` succeeds. -/
def pyInt (s : String) : Nat := (parseNat s).getD 0

/-- One version record: the `model_info` dict built in
`ModelRegistry.save_model`. -/
structure ModelInfo where
  name : String
  version : String
  descr : String
  tags : List (String × PyVal)
  created_at : String
  storage_path : String
  file_size : Nat
deriving DecidableEq, Repr

/-- The in-memory index: Python dict of model name to list of records,
insertion ordered. -/
abbrev Index := List (String × List ModelInfo)

/-- Python dict read `d[k]` / `d.get(k)`: first matching key. -/
def dget {α : Type} : List (String × α) → String → Option α
  | [], _ => none
  | (k0, v0) :: rest, k => if k0 = k then some v0 else dget rest k

/-- Python `k in d`. -/
def dhas {α : Type} (d : List (String × α)) (k : String) : Bool :=
  (dget d k).isSome

/-- Python dict assignment `d[k] = v`: replace in place, else append. -/
def dset {α : Type} : List (String × α) → String → α → List (String × α)
  | [], k, v => [(k, v)]
  | (k0, v0) :: rest, k, v =>
      if k0 = k then (k0, v) :: rest else (k0, v0) :: dset rest k v

/-- Python `del d[k]`: drop the (unique) entry with key `k`. -/
def ddel {α : Type} : List (String × α) → String → List (String × α)
  | [], _ => []
  | (k0, v0) :: rest, k =>
      if k0 = k then rest else (k0, v0) :: ddel rest k

/-- Numeric maximum of the version strings of a record list; Python
`max(int(info[...]) for info in recs)` over a non-empty list agrees with
this fold from 0 since versions are non-negative. -/
def maxVersionNat (recs : List ModelInfo) : Nat :=
  recs.foldl (fun m r => max m (pyInt r.version)) 0

/-- `ModelRegistry._get_next_version`: "1" when the name is absent or has
no records, else one plus the numeric maximum. -/
def getNextVersion (metadata : Index) (name : String) : String :=
  match dget metadata name with
  | none => "1"
  | some [] => "1"
  | some recs => natToString (maxVersionNat recs + 1)

/-- Python `max(recs, key=lambda x: int(x[...]))`: first record with the
numerically greatest version (later records replace only on strict
increase). -/
def maxByVersion : List ModelInfo → Option ModelInfo
  | [] => none
  | r :: rs =>
      some (rs.foldl (fun best x =>
        if pyInt x.version > pyInt best.version then x else best) r)

/-- Message of the `ValueError` raised for an unknown model name. -/
def notFoundMsg (name : String) : String :=
  "Model " ++ name ++ " not found in registry"

/-- Message of the `ValueError` raised for an unknown version of a known
model. -/
def versionNotFoundMsg (name version : String) : String :=
  "Model " ++ name ++ " version " ++ version ++ " not found"

/-- `ModelRegistry._get_model_info`: resolve a name and optional version
to a record, or the `ValueError` the code raises. -/
def getModelInfo (metadata : Index) (name : String) (version : Option String) :
    Except String ModelInfo :=
  match dget metadata name with
  | none => .error (notFoundMsg name)
  | some recs =>
      match version with
      | none =>
          match maxByVersion recs with
          | some r => .ok r
          | none => .error "max() arg is an empty sequence"
      | some v =>
          match recs.find? (fun info => info.version == v) with
          | some info => .ok info
          | none => .error (versionNotFoundMsg name v)

/-- `ModelRegistry.get_latest_version`: the version string of the record
with the numerically greatest version. -/
def getLatestVersion (metadata : Index) (name : String) : Except String String :=
  match dget metadata name with
  | none => .error (notFoundMsg name)
  | some recs =>
      match maxByVersion recs with
      | some r => .ok r.version
      | none => .error "max() arg is an empty sequence"

/-- Serialized bytes of a pickled model object: `pickle.dump` output. -/
abbrev Art := List Nat

/-- `LocalStorageBackend`: a base directory and the files below it,
as a map from full path to contents. -/
structure LocalStorage where
  base_path : String
  files : List (String × Art)
deriving DecidableEq, Repr

/-- `os.path.join(base, path)` for the relative paths this program uses. -/
def joinPath (base p : String) : String := base ++ "/" ++ p

/-- `LocalStorageBackend.save_model`: write the pickled bytes at
base/path (directories are created as needed, not modelled). -/
def lsSaveModel (st : LocalStorage) (art : Art) (path : String) : LocalStorage :=
  { st with files := dset st.files (joinPath st.base_path path) art }

/-- `LocalStorageBackend.load_model`: unpickle the file contents;
`none` models the `FileNotFoundError`. -/
def lsLoadModel (st : LocalStorage) (path : String) : Option Art :=
  dget st.files (joinPath st.base_path path)

/-- `LocalStorageBackend.delete_model`: remove the file if present
(idempotent). -/
def lsDeleteModel (st : LocalStorage) (path : String) : LocalStorage :=
  { st with files := ddel st.files (joinPath st.base_path path) }

/-- `LocalStorageBackend.get_model_size`: byte size of the file,
`none` models the error when the path does not exist. -/
def lsGetModelSize (st : LocalStorage) (path : String) : Option Nat :=
  (dget st.files (joinPath st.base_path path)).map List.length

/-- `JSONMetadataBackend.save_metadata`: overwrite the whole document
with the serialization of the full index; the prior file contents `fs`
are irrelevant. -/
def jsonSaveMetadata (_fs : Option Index) (metadata : Index) : Option Index :=
  some metadata

/-- `JSONMetadataBackend.load_metadata`: parse the document, or return
the empty index when no file exists. -/
def jsonLoadMetadata (fs : Option Index) : Index :=
  match fs with
  | none => []
  | some doc => doc

/-- A Registry wired to `LocalStorageBackend` + `JSONMetadataBackend`:
the storage files, the JSON document (parsed form) and the in-memory
index. -/
structure JRegistry where
  storage : LocalStorage
  doc : Option Index
  metadata : Index
deriving DecidableEq, Repr

/-- `ModelRegistry.__init__` with the JSON backend: load the index from
the document. -/
def jInit (storage : LocalStorage) (doc : Option Index) : JRegistry :=
  { storage := storage, doc := doc, metadata := jsonLoadMetadata doc }

/-- The `model_info` dict built inside `ModelRegistry.save_model`, given
the just-written storage state. -/
def mkInfo (storage : LocalStorage) (name version descr : String)
    (tags : List (String × PyVal)) (now model_path : String) : ModelInfo :=
  { name := name
  , version := version
  , descr := descr
  , tags := tags
  , created_at := now
  , storage_path := model_path
  , file_size := (lsGetModelSize storage model_path).getD 0 }

/-- Outcome of `save_model` with an injected backend fault: the state at
the moment the exception propagates, or the success state with the
returned version string. -/
inductive SaveOutcome where
  | ok (st : JRegistry) (version : String)
  | storageFail (st : JRegistry)
  | metaFail (st : JRegistry)
deriving DecidableEq, Repr

/-- `ModelRegistry.save_model` over the JSON-backed registry, with fault
injection: `storageOk = false` makes the storage write raise
(before any other mutation), `metaOk = false` makes the metadata persist
raise (after the in-memory index was mutated). The sequencing mirrors
the source: next version, path, storage write, model_info, index append,
metadata save. -/
def jSaveModelF (st : JRegistry) (art : Art) (name descr : String)
    (tags : List (String × PyVal)) (now : String)
    (storageOk metaOk : Bool) : SaveOutcome :=
  let version := getNextVersion st.metadata name
  let model_path := name ++ "/v" ++ version ++ "/model.pkl"
  if storageOk then
    let storage := lsSaveModel st.storage art model_path
    let info := mkInfo storage name version descr tags now model_path
    let md0 := if dhas st.metadata name then st.metadata
               else dset st.metadata name []
    let metadata := dset md0 name (((dget md0 name).getD []) ++ [info])
    if metaOk then
      .ok { storage := storage, doc := jsonSaveMetadata st.doc metadata
          , metadata := metadata } version
    else .metaFail { st with storage := storage, metadata := metadata }
  else .storageFail st

/-- `ModelRegistry.save_model`, fault-free run, returning the new state. -/
def jSaveModel (st : JRegistry) (art : Art) (name descr : String)
    (tags : List (String × PyVal)) (now : String) : JRegistry :=
  match jSaveModelF st art name descr tags now true true with
  | .ok st1 _ => st1
  | .storageFail st1 => st1
  | .metaFail st1 => st1

/-- The version string `save_model` returns on a fault-free run. -/
def jSaveVersion (st : JRegistry) (name : String) : String :=
  getNextVersion st.metadata name

/-- Outcome of `delete_model` with an injected storage fault. -/
inductive DelOutcome where
  | ok (st : JRegistry)
  | notFound (msg : String) (st : JRegistry)
  | storageFail (st : JRegistry)
deriving DecidableEq, Repr

/-- `ModelRegistry.delete_model` over the JSON-backed registry, with
fault injection on the storage delete. The sequencing mirrors the
source: resolve the record exactly as `load` does, delete the artifact
from storage, filter the record out of the index, drop the name key if
its list became empty, persist the full index. -/
def jDeleteModelF (st : JRegistry) (name : String) (version : Option String)
    (storageOk : Bool) : DelOutcome :=
  match getModelInfo st.metadata name version with
  | .error e => .notFound e st
  | .ok info =>
      if storageOk then
        let storage := lsDeleteModel st.storage info.storage_path
        let filtered := ((dget st.metadata name).getD []).filter
          (fun r => r.version ≠ info.version)
        let md1 := dset st.metadata name filtered
        let metadata := if filtered.isEmpty then ddel md1 name else md1
        .ok { storage := storage, doc := jsonSaveMetadata st.doc metadata
            , metadata := metadata }
      else .storageFail st

/-- `delete_model`, fault-free, ignoring the not-found error (state is
unchanged there). -/
def jDeleteModel (st : JRegistry) (name : String) (version : Option String) :
    JRegistry :=
  match jDeleteModelF st name version true with
  | .ok st1 => st1
  | .notFound _ st1 => st1
  | .storageFail st1 => st1

/-- One registry operation, for reasoning about operation sequences. -/
inductive Op where
  | save (art : Art) (name descr : String) (tags : List (String × PyVal)) (now : String)
  | del (name : String) (version : Option String)
deriving DecidableEq, Repr

/-- Apply one operation to the JSON-backed registry (fault-free). -/
def applyOp (st : JRegistry) : Op → JRegistry
  | .save art name descr tags now => jSaveModel st art name descr tags now
  | .del name version => jDeleteModel st name version

/-- Run a sequence of operations. -/
def runOps (st : JRegistry) (ops : List Op) : JRegistry :=
  ops.foldl applyOp st

/-- Version strings currently recorded for a name. -/
def versionsOf (st : JRegistry) (name : String) : List String :=
  ((dget st.metadata name).getD []).map (fun r => r.version)

/-- Whether an operation list contains no delete on the given name. -/
def noDeleteOn (name : String) (ops : List Op) : Prop :=
  ∀ op ∈ ops, match op with
    | Op.del m _ => m ≠ name
    | Op.save _ _ _ _ _ => True

/-- Number of saves targeting the given name. -/
def countSaves (name : String) (ops : List Op) : Nat :=
  (ops.filter (fun op => match op with
    | Op.save _ m _ _ _ => m == name
    | Op.del _ _ => false)).length

/-- Row of the `mr_models` table. -/
structure DbModelRow where
  id : Nat
  name : String
  created_at : String
  updated_at : String
deriving DecidableEq, Repr

/-- Row of the `mr_model_versions` table. -/
structure DbVersionRow where
  id : Nat
  model_id : Nat
  version : String
  descr : String
  storage_path : String
  file_size_bytes : Nat
  created_at : String
deriving DecidableEq, Repr

/-- Row of the `mr_model_tags` table. -/
structure DbTagRow where
  model_version_id : Nat
  tag_key : String
  tag_value : String
deriving DecidableEq, Repr

/-- The SQLite database: the three tables in rowid (insertion) order plus
the next fresh surrogate ids. -/
structure Db where
  models : List DbModelRow
  versions : List DbVersionRow
  tags : List DbTagRow
  nextModelId : Nat
  nextVersionId : Nat
deriving DecidableEq, Repr

/-- A freshly migrated, empty database. -/
def emptyDb : Db :=
  { models := [], versions := [], tags := [], nextModelId := 1, nextVersionId := 1 }

/-- `SQLiteMetadataBackend._get_or_create_model`: return the id of the
model row with the given name, inserting a fresh row when absent. -/
def getOrCreateModel (db : Db) (name now : String) : Nat × Db :=
  match db.models.find? (fun m => m.name == name) with
  | some m => (m.id, db)
  | none =>
      (db.nextModelId,
       { db with
           models := db.models ++ [{ id := db.nextModelId, name := name
                                   , created_at := now, updated_at := now }]
           , nextModelId := db.nextModelId + 1 })

/-- Effect of `INSERT OR REPLACE INTO mr_model_tags` on the tag table.
Modelled from the spec: the migration SQL (not under src/) declares tags
unique per (version_id, tag_key), so the insert replaces the matching
row. -/
def insertOrReplaceTagRows (t : List DbTagRow) (vid : Nat) (k v : String) :
    List DbTagRow :=
  t.filter (fun r => !(r.model_version_id == vid && r.tag_key == k))
    ++ [{ model_version_id := vid, tag_key := k, tag_value := v }]

/-- `SQLiteMetadataBackend.save_model_metadata`: get-or-create the model
row, insert one version row, then insert the tags with values passed
through `str(...)`. `now` stands for the `datetime.now()` used for a
fresh model row. -/
def saveModelMetadata (db : Db) (info : ModelInfo) (now : String) : Db :=
  let p := getOrCreateModel db info.name now
  let db1 := p.2
  let vrow : DbVersionRow :=
    { id := db1.nextVersionId, model_id := p.1, version := info.version
    , descr := info.descr, storage_path := info.storage_path
    , file_size_bytes := info.file_size, created_at := info.created_at }
  let db2 := { db1 with
                 versions := db1.versions ++ [vrow],
                 nextVersionId := db1.nextVersionId + 1 }
  if info.tags.isEmpty then db2
  else
    { db2 with
        tags := info.tags.foldl
          (fun t kv => insertOrReplaceTagRows t vrow.id kv.1 (pyStr kv.2))
          db2.tags }

/-- Stable insertion of an element into a list sorted by `le`: the new
element goes after existing elements it does not strictly precede. -/
def insSorted {α : Type} (le : α → α → Bool) (x : α) : List α → List α
  | [] => [x]
  | y :: ys => if le y x then y :: insSorted le x ys else x :: y :: ys

/-- Stable sort by a boolean total preorder, embedding SQL `ORDER BY`. -/
def sortBy {α : Type} (le : α → α → Bool) (l : List α) : List α :=
  l.foldl (fun acc x => insSorted le x acc) []

/-- SQL `ORDER BY m.name, CAST(mv.version AS INTEGER)`. -/
def dbRowLe (a b : String × DbVersionRow) : Bool :=
  if a.1 = b.1 then decide (pyInt a.2.version ≤ pyInt b.2.version)
  else decide (a.1 < b.1)

/-- The `mr_models JOIN mr_model_versions` rows before ordering. -/
def joinedRows (db : Db) : List (String × DbVersionRow) :=
  db.models.foldl
    (fun acc m =>
      acc ++ (db.versions.filter (fun v => v.model_id == m.id)).map
        (fun v => (m.name, v)))
    []

/-- `SQLiteMetadataBackend.load_metadata`: reconstruct the index from the
ordered join, collecting `(version row id, model name, position)` for the
tag pass, then assign each matching tag row into its record's tag dict. -/
def loadMetadata (db : Db) : Index :=
  let rows := sortBy dbRowLe (joinedRows db)
  let acc0 : Index × List (Nat × String × Nat) := ([], [])
  let built := rows.foldl
    (fun acc r =>
      let info : ModelInfo :=
        { name := r.1, version := r.2.version, descr := r.2.descr
        , tags := [], created_at := r.2.created_at
        , storage_path := r.2.storage_path, file_size := r.2.file_size_bytes }
      let cur := (dget acc.1 r.1).getD []
      (dset acc.1 r.1 (cur ++ [info]), acc.2 ++ [(r.2.id, r.1, cur.length)]))
    acc0
  let md := built.1
  let vids := built.2
  if vids.isEmpty then md
  else
    db.tags.foldl
      (fun md t =>
        match vids.find? (fun e => e.1 == t.model_version_id) with
        | none => md
        | some e =>
            let recs := (dget md e.2.1).getD []
            match recs.get? e.2.2 with
            | none => md
            | some r =>
                dset md e.2.1
                  (recs.set e.2.2
                    { r with tags := dset r.tags t.tag_key (PyVal.str t.tag_value) }))
      md

/-- `SQLiteMetadataBackend.delete_model_version`: delete the version row
selected by name and version, then delete model rows left with no
versions. Tag rows of the deleted version are removed by the schema's
cascade rule (modelled from the spec: the migration SQL is not under
src/). -/
def deleteModelVersion (db : Db) (name version : String) : Db :=
  let mid := (db.models.find? (fun m => m.name == name)).map (fun m => m.id)
  let deadIds := (db.versions.filter
    (fun v => some v.model_id == mid && v.version == version)).map (fun v => v.id)
  let versions := db.versions.filter
    (fun v => !(some v.model_id == mid && v.version == version))
  let models := db.models.filter (fun m => versions.any (fun v => v.model_id == m.id))
  let tags := db.tags.filter (fun t => !(deadIds.contains t.model_version_id))
  { db with versions := versions, models := models, tags := tags }

/-- The composite database-backed system: Python list objects live in an
explicit heap (`heap`, ids are positions) because the Registry's dict and
the backend's `_current_metadata` snapshot alias them. `regSame = true`
records that the two dict references point at the same object, as after
`load_metadata` (which stores the very dict it returns); after a
`save_metadata` the snapshot is a shallow `copy()` — a distinct dict
(`snap`) whose values are the same list ids. -/
structure DbSys where
  heap : List (List ModelInfo)
  regSame : Bool
  reg : List (String × Nat)
  snap : List (String × Nat)
  db : Db
  storage : LocalStorage
deriving DecidableEq, Repr

/-- Read a list object out of the heap. -/
def heapGet (h : List (List ModelInfo)) (i : Nat) : List ModelInfo :=
  (h.get? i).getD []

/-- Overwrite a list object in place. -/
def heapSet (h : List (List ModelInfo)) (i : Nat) (l : List ModelInfo) :
    List (List ModelInfo) :=
  h.set i l

/-- The index the Registry sees: its dict with every list reference
dereferenced. -/
def regIndex (s : DbSys) : Index :=
  s.reg.map (fun e => (e.1, heapGet s.heap e.2))

/-- `DatabaseMetadataBackend.save_metadata` called on the Registry's own
dict: diff the incoming index against `_current_metadata` (which is the
same dict when `regSame`), insert the versions the diff considers new,
then snapshot via shallow `copy()` (same list ids, distinct dict). -/
def dbSaveMetadataOp (s : DbSys) (now : String) : DbSys :=
  let snapD := if s.regSame then s.reg else s.snap
  let db1 := s.reg.foldl
    (fun d e =>
      match dget snapD e.1 with
      | none => (heapGet s.heap e.2).foldl (fun d info => saveModelMetadata d info now) d
      | some slid =>
          let existing := (heapGet s.heap slid).map (fun r => r.version)
          (heapGet s.heap e.2).foldl
            (fun d info =>
              if existing.contains info.version then d
              else saveModelMetadata d info now)
            d)
    s.db
  { s with db := db1, snap := s.reg, regSame := false }

/-- `ModelRegistry.__init__` with the database backend:
`load_metadata` builds a fresh dict of fresh lists from the database and
stores that same dict as `_current_metadata`; the Registry keeps it as
its index (`regSame = true`). -/
def dbSysInit (db : Db) (storage : LocalStorage) : DbSys :=
  let md := loadMetadata db
  { heap := md.map (fun e => e.2)
  , regSame := true
  , reg := md.enum.map (fun p => (p.2.1, p.1))
  , snap := []
  , db := db
  , storage := storage }

/-- `ModelRegistry.save_model` over the database-backed system
(fault-free): version assignment, storage write, `model_info`, dict/list
mutations (a new name binds a fresh empty list object; the append
mutates the shared list object in place), then the backend's
`save_metadata`. Returns the new state and the version string. -/
def dbSysSaveModel (s : DbSys) (art : Art) (name descr : String)
    (tags : List (String × PyVal)) (now : String) : DbSys × String :=
  let md := regIndex s
  let version := getNextVersion md name
  let model_path := name ++ "/v" ++ version ++ "/model.pkl"
  let storage := lsSaveModel s.storage art model_path
  let info := mkInfo storage name version descr tags now model_path
  let s1 :=
    if dhas s.reg name then { s with storage := storage }
    else { s with
             storage := storage,
             heap := s.heap ++ [[]],
             reg := s.reg ++ [(name, s.heap.length)] }
  let lid := (dget s1.reg name).getD 0
  let s2 := { s1 with heap := heapSet s1.heap lid (heapGet s1.heap lid ++ [info]) }
  (dbSaveMetadataOp s2 now, version)

/-- `ModelRegistry.delete_model` over the database-backed system
(fault-free): resolve like `load`, delete the artifact, rebind the
name's entry to a freshly allocated filtered list (`self.metadata[name]
= [...]` creates a new list object), drop the key if empty, then the
backend's `save_metadata`. -/
def dbSysDeleteModel (s : DbSys) (name : String) (version : Option String)
    (now : String) : Except String DbSys :=
  match getModelInfo (regIndex s) name version with
  | .error e => .error e
  | .ok info =>
      let storage := lsDeleteModel s.storage info.storage_path
      let old := (dget s.reg name).getD 0
      let filtered := (heapGet s.heap old).filter (fun r => r.version ≠ info.version)
      let heap := s.heap ++ [filtered]
      let reg1 := dset s.reg name s.heap.length
      let reg2 := if filtered.isEmpty then ddel reg1 name else reg1
      let s1 := { s with storage := storage, heap := heap, reg := reg2 }
      .ok (dbSaveMetadataOp s1 now)

/-- The version string `save_model` assigns from a given pre-state. -/
def savedVersion (st : JRegistry) (name : String) : String :=
  getNextVersion st.metadata name

/-- The storage path `save_model` derives from a given pre-state. -/
def savedPath (st : JRegistry) (name : String) : String :=
  name ++ "/v" ++ savedVersion st name ++ "/model.pkl"

/-- The record `save_model` appends, from a given pre-state. -/
def savedInfo (st : JRegistry) (art : Art) (name descr : String)
    (tags : List (String × PyVal)) (now : String) : ModelInfo :=
  mkInfo (lsSaveModel st.storage art (savedPath st name)) name
    (savedVersion st name) descr tags now (savedPath st name)

/-- The state `delete_model` produces once the record is resolved: the
artifact deleted from storage, the record filtered out of the index, the
name dropped if empty, the full index persisted. -/
def delPost (st : JRegistry) (name : String) (info : ModelInfo) : JRegistry :=
  let filtered := ((dget st.metadata name).getD []).filter
    (fun r => r.version ≠ info.version)
  let md1 := dset st.metadata name filtered
  let metadata := if filtered.isEmpty then ddel md1 name else md1
  { storage := lsDeleteModel st.storage info.storage_path
  , doc := some metadata, metadata := metadata }

/-! Concrete states used by the closed theorems below. -/

/-- An empty local storage directory. -/
def exStorage : LocalStorage := { base_path := "./models", files := [] }

/-- Freshly constructed database-backed registry over an empty database. -/
def exDbS0 : DbSys := dbSysInit emptyDb exStorage

/-- After `save_model(model, "m")` on the fresh database-backed registry. -/
def exDbS1 : DbSys := (dbSysSaveModel exDbS0 [7] "m" "" [] "t1").1

/-- After a second `save_model(model, "m")`. -/
def exDbS2 : DbSys := (dbSysSaveModel exDbS1 [7, 7] "m" "" [] "t2").1

/-- Registry B: a restart against the same database and storage. -/
def exDbRestart : DbSys := dbSysInit exDbS2.db exDbS2.storage

/-- Fresh JSON-backed registry (no document yet). -/
def exJ0 : JRegistry := jInit exStorage none

/-- After `save_model(model, "m")` (assigns version "1"). -/
def exJ1 : JRegistry := jSaveModel exJ0 [7] "m" "" [] "t1"

/-- After a second `save_model(model, "m")` (assigns version "2"). -/
def exJ2 : JRegistry := jSaveModel exJ1 [8] "m" "" [] "t2"

/-- After `delete_model("m", "2")`. -/
def exJ3 : JRegistry := jDeleteModel exJ2 "m" (some "2")

/-- A record with version string "2". -/
def exRec2 : ModelInfo :=
  { name := "m", version := "2", descr := "", tags := []
  , created_at := "t", storage_path := "m/v2/model.pkl", file_size := 1 }

/-- A record with version string "10". -/
def exRec10 : ModelInfo :=
  { name := "m", version := "10", descr := "", tags := []
  , created_at := "t", storage_path := "m/v10/model.pkl", file_size := 1 }

/-- Index holding versions "2" and "10" of model "m". -/
def exMd210 : Index := [("m", [exRec2, exRec10])]

/-- A record carrying a numeric tag value. -/
def exInfoTag : ModelInfo :=
  { name := "m", version := "1", descr := "d"
  , tags := [("k", PyVal.int 42)], created_at := "t"
  , storage_path := "m/v1/model.pkl", file_size := 3 }

/-- The stringified-tag record the relational round trip produces. -/
def exInfoTagStr : ModelInfo :=
  { exInfoTag with tags := [("k", PyVal.str "42")] }

/-- Database after persisting `exInfoTag` through the SQLite backend. -/
def exDbTag : Db := saveModelMetadata emptyDb exInfoTag "t0"

/-- A JSON-backed registry holding one record of "m". -/
def exSt8 : JRegistry :=
  { storage := exStorage, doc := some [("m", [exRec2])]
  , metadata := [("m", [exRec2])] }

/-- Result state of a successful `delete_model` on the database-backed
example system. -/
def exDbDel : DbSys :=
  match dbSysDeleteModel exDbS1 "m" none "t3" with
  | .ok s => s
  | .error _ => exDbS1

/-! Helper lemmas about the dict embedding. -/

theorem dget_dset_self {α : Type} (d : List (String × α)) (k : String) (v : α) :
    dget (dset d k v) k = some v := by
  induction d with
  | nil => simp [dset, dget]
  | cons hd tl ih =>
      obtain ⟨k0, v0⟩ := hd
      by_cases h : k0 = k
      · simp [dset, dget, h]
      · simp [dset, dget, h, ih]

theorem dget_dset_ne {α : Type} (d : List (String × α)) {k k' : String} (v : α)
    (h : k ≠ k') : dget (dset d k v) k' = dget d k' := by
  induction d with
  | nil => simp [dset, dget, h]
  | cons hd tl ih =>
      obtain ⟨k0, v0⟩ := hd
      by_cases h0 : k0 = k
      · subst h0
        simp [dset, dget, h]
      · simp [dset, dget, h0, ih]

theorem dget_ddel_ne {α : Type} (d : List (String × α)) {k k' : String}
    (h : k ≠ k') : dget (ddel d k) k' = dget d k' := by
  induction d with
  | nil => simp [ddel]
  | cons hd tl ih =>
      obtain ⟨k0, v0⟩ := hd
      by_cases h0 : k0 = k
      · subst h0
        simp [ddel, dget, h]
      · simp [ddel, dget, h0, ih]

/-! Helper lemmas: `str` and `int` round-trip on version numbers. -/

theorem charDigit_digitChar (d : Nat) (h : d < 10) :
    charDigit (digitChar d) = some d := by
  interval_cases d <;> decide

theorem parseNatCore_concat (l : List Char) (c : Char) :
    parseNatCore (l ++ [c]) =
      match parseNatCore l, charDigit c with
      | some n, some d => some (n * 10 + d)
      | _, _ => none := by
  simp [parseNatCore, List.foldl_append]

theorem parseNatCore_natDigitsAux (fuel : Nat) :
    ∀ n : Nat, n < fuel → parseNatCore (natDigitsAux fuel n) = some n := by
  induction fuel with
  | zero => omega
  | succ fuel ih =>
      intro n hn
      by_cases h10 : n < 10
      · simp [natDigitsAux, h10, parseNatCore, charDigit_digitChar n h10]
      · have hlt : n / 10 < n := Nat.div_lt_self (by omega) (by omega)
        have hdiv : n / 10 < fuel := by omega
        have hmod : n % 10 < 10 := Nat.mod_lt _ (by omega)
        rw [natDigitsAux, if_neg h10, parseNatCore_concat, ih _ hdiv,
          charDigit_digitChar _ hmod]
        show some (n / 10 * 10 + n % 10) = some n
        have : n / 10 * 10 + n % 10 = n := by omega
        rw [this]

theorem natDigits_ne_nil (n : Nat) : natDigits n ≠ [] := by
  unfold natDigits natDigitsAux
  split <;> simp

theorem parseNat_natToString (n : Nat) : parseNat (natToString n) = some n := by
  have hcore := parseNatCore_natDigitsAux (n + 1) n (Nat.lt_succ_self n)
  have hne := natDigits_ne_nil n
  unfold natToString parseNat
  cases hd : natDigits n with
  | nil => exact absurd hd hne
  | cons c cs =>
      show parseNatCore (c :: cs) = some n
      rw [← hd]
      exact hcore

theorem pyInt_natToString (n : Nat) : pyInt (natToString n) = n := by
  simp [pyInt, parseNat_natToString]

/-! Helper lemmas: maxima over version lists. -/

theorem le_foldl_max (l : List Nat) :
    ∀ init : Nat, (∀ x ∈ l, x ≤ l.foldl max init) ∧ init ≤ l.foldl max init := by
  induction l with
  | nil => simp
  | cons a tl ih =>
      intro init
      constructor
      · intro x hx
        rcases List.mem_cons.mp hx with rfl | hx'
        · calc x ≤ max init x := Nat.le_max_right _ _
            _ ≤ tl.foldl max (max init x) := (ih (max init x)).2
            _ = (x :: tl).foldl max init := by simp [List.foldl_cons]
        · exact (ih (max init a)).1 x hx'
      · calc init ≤ max init a := Nat.le_max_left _ _
          _ ≤ tl.foldl max (max init a) := (ih (max init a)).2
          _ = (a :: tl).foldl max init := by simp [List.foldl_cons]

theorem maxVersionNat_ge (recs : List ModelInfo) {r : ModelInfo} (hr : r ∈ recs) :
    pyInt r.version ≤ maxVersionNat recs := by
  have hmem : pyInt r.version ∈ recs.map (fun x => pyInt x.version) :=
    List.mem_map_of_mem _ hr
  have := (le_foldl_max (recs.map (fun x => pyInt x.version)) 0).1 _ hmem
  simpa [maxVersionNat, List.foldl_map] using this

/-- The next version numerically exceeds every version currently present
for the name. -/
theorem getNextVersion_gt (md : Index) (name : String) (recs : List ModelInfo)
    (h : dget md name = some recs) {r : ModelInfo} (hr : r ∈ recs) :
    pyInt r.version < pyInt (getNextVersion md name) := by
  cases recs with
  | nil => cases hr
  | cons a tl =>
      have : getNextVersion md name = natToString (maxVersionNat (a :: tl) + 1) := by
        simp [getNextVersion, h]
      rw [this, pyInt_natToString]
      have := maxVersionNat_ge (a :: tl) hr
      omega

/-! Helper lemmas characterizing `save_model` and `delete_model` on the
JSON-backed registry. -/

theorem dget_of_dhas_false {α : Type} {d : List (String × α)} {k : String}
    (h : dhas d k = false) : dget d k = none := by
  unfold dhas at h
  cases hg : dget d k with
  | none => rfl
  | some v => rw [hg] at h; simp at h

theorem jSaveModel_metadata_at (st : JRegistry) (art : Art) (name descr : String)
    (tags : List (String × PyVal)) (now : String) :
    dget (jSaveModel st art name descr tags now).metadata name =
      some (((dget st.metadata name).getD [])
        ++ [savedInfo st art name descr tags now]) := by
  by_cases hh : dhas st.metadata name
  · simp [jSaveModel, jSaveModelF, hh, dget_dset_self,
      savedInfo, savedPath, savedVersion]
  · simp [jSaveModel, jSaveModelF, hh, dget_dset_self, dget_of_dhas_false
      (by simpa using hh), savedInfo, savedPath, savedVersion]

theorem jSaveModel_metadata_ne (st : JRegistry) (art : Art) (descr : String)
    (tags : List (String × PyVal)) (now : String) {name other : String}
    (h : name ≠ other) :
    dget (jSaveModel st art name descr tags now).metadata other
      = dget st.metadata other := by
  by_cases hh : dhas st.metadata name <;>
    simp [jSaveModel, jSaveModelF, hh, dget_dset_ne _ _ h]

theorem jSaveModel_storage (st : JRegistry) (art : Art) (name descr : String)
    (tags : List (String × PyVal)) (now : String) :
    (jSaveModel st art name descr tags now).storage
      = lsSaveModel st.storage art (savedPath st name) := by
  by_cases hh : dhas st.metadata name <;>
    simp [jSaveModel, jSaveModelF, hh, savedPath, savedVersion]

theorem jSaveModel_doc (st : JRegistry) (art : Art) (name descr : String)
    (tags : List (String × PyVal)) (now : String) :
    (jSaveModel st art name descr tags now).doc
      = some (jSaveModel st art name descr tags now).metadata := by
  by_cases hh : dhas st.metadata name <;>
    simp [jSaveModel, jSaveModelF, jsonSaveMetadata, hh]

theorem jDeleteModelF_notFound {st : JRegistry} {name : String}
    {v : Option String} {e : String}
    (h : getModelInfo st.metadata name v = .error e) (b : Bool) :
    jDeleteModelF st name v b = .notFound e st := by
  simp [jDeleteModelF, h]

theorem jDeleteModelF_storage_fault {st : JRegistry} {name : String}
    {v : Option String} {info : ModelInfo}
    (h : getModelInfo st.metadata name v = .ok info) :
    jDeleteModelF st name v false = .storageFail st := by
  simp [jDeleteModelF, h]

theorem jDeleteModelF_ok {st : JRegistry} {name : String}
    {v : Option String} {info : ModelInfo}
    (h : getModelInfo st.metadata name v = .ok info) :
    jDeleteModelF st name v true = .ok (delPost st name info) := by
  simp [jDeleteModelF, delPost, h, jsonSaveMetadata]

theorem jDeleteModel_metadata_ne (st : JRegistry) (v : Option String)
    {name n : String} (h : name ≠ n) :
    dget (jDeleteModel st name v).metadata n = dget st.metadata n := by
  unfold jDeleteModel
  cases hg : getModelInfo st.metadata name v with
  | error e => rw [jDeleteModelF_notFound hg]
  | ok info =>
      rw [jDeleteModelF_ok hg]
      simp only [delPost]
      split
      · rw [dget_ddel_ne _ h, dget_dset_ne _ _ h]
      · rw [dget_dset_ne _ _ h]

theorem versionsOf_save_self (st : JRegistry) (art : Art) (name descr : String)
    (tags : List (String × PyVal)) (now : String) :
    versionsOf (jSaveModel st art name descr tags now) name
      = versionsOf st name ++ [getNextVersion st.metadata name] := by
  unfold versionsOf
  rw [jSaveModel_metadata_at]
  simp [savedInfo, mkInfo, savedVersion]

theorem versionsOf_save_ne (st : JRegistry) (art : Art) (descr : String)
    (tags : List (String × PyVal)) (now : String) {name n : String}
    (h : name ≠ n) :
    versionsOf (jSaveModel st art name descr tags now) n = versionsOf st n := by
  unfold versionsOf
  rw [jSaveModel_metadata_ne _ _ _ _ _ h]

theorem versionsOf_del_ne (st : JRegistry) (v : Option String) {name n : String}
    (h : name ≠ n) :
    versionsOf (jDeleteModel st name v) n = versionsOf st n := by
  unfold versionsOf
  rw [jDeleteModel_metadata_ne _ _ h]

/-! Helper lemmas: canonical consecutive version lists. -/

theorem natToString_one : natToString 1 = "1" := by decide

theorem foldl_max_range (k : Nat) : (List.range' 1 k).foldl max 0 = k := by
  induction k with
  | zero => simp
  | succ k ih =>
      rw [List.range'_concat, List.foldl_append, ih]
      simp [List.foldl_cons]
      omega

theorem maxVersionNat_canonical (recs : List ModelInfo) (k : Nat)
    (h : recs.map (fun r => r.version) = (List.range' 1 k).map natToString) :
    maxVersionNat recs = k := by
  have hpy : recs.map (pyInt ∘ fun r => r.version) = List.range' 1 k := by
    have h2 := congrArg (List.map pyInt) h
    simp only [List.map_map] at h2
    rw [h2]
    have h3 : (pyInt ∘ natToString) = fun x : Nat => x := funext pyInt_natToString
    rw [h3]
    simp
  have h4 : maxVersionNat recs
      = (recs.map (pyInt ∘ fun r => r.version)).foldl max 0 := by
    rw [List.foldl_map]
    rfl
  rw [h4, hpy, foldl_max_range]

theorem getNextVersion_canonical (md : Index) (n : String) (k : Nat)
    (h : ((dget md n).getD []).map (fun r => r.version)
      = (List.range' 1 k).map natToString) :
    getNextVersion md n = natToString (k + 1) := by
  cases hg : dget md n with
  | none =>
      rw [hg] at h
      simp at h
      subst h
      simp [getNextVersion, hg, natToString_one]
  | some recs =>
      rw [hg] at h
      cases recs with
      | nil =>
          simp at h
          subst h
          simp [getNextVersion, hg, natToString_one]
      | cons a tl =>
          have hmax := maxVersionNat_canonical (a :: tl) k (by simpa using h)
          simp [getNextVersion, hg, hmax]

theorem countSaves_cons_save_eq (n descr : String) (a : Art)
    (tags : List (String × PyVal)) (now : String) (rest : List Op) :
    countSaves n (Op.save a n descr tags now :: rest) = countSaves n rest + 1 := by
  simp [countSaves, List.filter_cons]

theorem countSaves_cons_save_ne {m n : String} (h : m ≠ n) (descr : String)
    (a : Art) (tags : List (String × PyVal)) (now : String) (rest : List Op) :
    countSaves n (Op.save a m descr tags now :: rest) = countSaves n rest := by
  simp [countSaves, List.filter_cons, h]

theorem countSaves_cons_del (n m : String) (v : Option String) (rest : List Op) :
    countSaves n (Op.del m v :: rest) = countSaves n rest := by
  simp [countSaves, List.filter_cons]

/-- Over any operation sequence containing no delete on `n`, the version
strings recorded for `n` stay the canonical consecutive list
`"1", ..., "k"`, growing by one per save on `n`. -/
theorem versions_consecutive (ops : List Op) :
    ∀ (st : JRegistry) (n : String) (k0 : Nat),
      versionsOf st n = (List.range' 1 k0).map natToString →
      noDeleteOn n ops →
      versionsOf (runOps st ops) n
        = (List.range' 1 (k0 + countSaves n ops)).map natToString := by
  induction ops with
  | nil =>
      intro st n k0 h _
      simpa [runOps, countSaves] using h
  | cons op rest ih =>
      intro st n k0 h hnd
      have hndr : noDeleteOn n rest := by
        intro o ho
        exact hnd o (List.mem_cons_of_mem _ ho)
      have hrun : runOps st (op :: rest) = runOps (applyOp st op) rest := by
        simp [runOps, List.foldl_cons]
      cases op with
      | save art m descr tags now =>
          by_cases hm : m = n
          · subst hm
            have hnext := getNextVersion_canonical st.metadata m k0 h
            have hstep : versionsOf (jSaveModel st art m descr tags now) m
                = (List.range' 1 (k0 + 1)).map natToString := by
              rw [versionsOf_save_self, h, hnext, List.range'_concat]
              have hc : 1 + 1 * k0 = k0 + 1 := by omega
              rw [hc]
              simp
            have hrec := ih (applyOp st (Op.save art m descr tags now)) m (k0 + 1)
              (by simpa [applyOp] using hstep) hndr
            have harith : k0 + 1 + countSaves m rest
                = k0 + (countSaves m rest + 1) := by omega
            rw [hrun, hrec, countSaves_cons_save_eq, harith]
          · have hstep : versionsOf (jSaveModel st art m descr tags now) n
                = versionsOf st n := versionsOf_save_ne st art descr tags now hm
            have hrec := ih (applyOp st (Op.save art m descr tags now)) n k0
              (by simpa [applyOp, hstep] using h) hndr
            rw [hrun, hrec, countSaves_cons_save_ne hm]
      | del m v =>
          have hm : m ≠ n := hnd (Op.del m v) (List.mem_cons_self _ _)
          have hstep : versionsOf (jDeleteModel st m v) n = versionsOf st n :=
            versionsOf_del_ne st v hm
          have hrec := ih (applyOp st (Op.del m v)) n k0
            (by simpa [applyOp, hstep] using h) hndr
          rw [hrun, hrec, countSaves_cons_del]

/-! Helper lemmas: tag insertion in the SQLite backend. -/

theorem any_eq_false_of_not_mem_keys {rest : List (String × PyVal)} {k : String}
    (hk : k ∉ rest.map Prod.fst) :
    rest.any (fun kv => k == kv.1) = false := by
  rw [List.any_eq_false]
  intro kv hkv
  simp only [beq_iff_eq]
  intro he
  exact hk (he ▸ List.mem_map_of_mem Prod.fst hkv)

theorem foldl_insertOrReplaceTagRows (vid : Nat) :
    ∀ (l : List (String × PyVal)) (t : List DbTagRow),
      (l.map Prod.fst).Nodup →
      l.foldl (fun acc kv => insertOrReplaceTagRows acc vid kv.1 (pyStr kv.2)) t
        = t.filter (fun r =>
            !(r.model_version_id == vid && l.any (fun kv => r.tag_key == kv.1)))
          ++ l.map (fun kv =>
              { model_version_id := vid, tag_key := kv.1, tag_value := pyStr kv.2 }) := by
  intro l
  induction l with
  | nil =>
      intro t _
      simp
  | cons kv rest ih =>
      intro t hnd
      obtain ⟨k0, v0⟩ := kv
      have hnd' : (rest.map Prod.fst).Nodup := (List.nodup_cons.mp hnd).2
      have hk0 : k0 ∉ rest.map Prod.fst := (List.nodup_cons.mp hnd).1
      simp only [List.foldl_cons]
      rw [ih _ hnd']
      simp only [insertOrReplaceTagRows, List.filter_append]
      have hrow : (List.filter
          (fun r : DbTagRow => !(r.model_version_id == vid
            && rest.any (fun kv => r.tag_key == kv.1)))
          [({ model_version_id := vid, tag_key := k0
            , tag_value := pyStr v0 } : DbTagRow)])
          = [({ model_version_id := vid, tag_key := k0
              , tag_value := pyStr v0 } : DbTagRow)] := by
        simp [List.filter_cons, any_eq_false_of_not_mem_keys hk0]
      rw [hrow]
      have hff : List.filter
          (fun r : DbTagRow => !(r.model_version_id == vid
            && rest.any (fun kv => r.tag_key == kv.1)))
          (List.filter
            (fun r : DbTagRow =>
              !(r.model_version_id == vid && r.tag_key == k0)) t)
          = List.filter
            (fun r : DbTagRow => !(r.model_version_id == vid
              && ((k0, v0) :: rest).any (fun kv => r.tag_key == kv.1))) t := by
        rw [List.filter_filter]
        apply List.filter_congr
        intro r _
        cases hm : (r.model_version_id == vid) <;>
          cases hk : (r.tag_key == k0) <;>
            simp [hm, hk, List.any_cons]
      rw [hff]
      simp [List.append_assoc]

/-! Helper lemmas: the SQLite backend only appends version rows. -/

theorem getOrCreateModel_fields (db : Db) (name now : String) :
    (getOrCreateModel db name now).2.versions = db.versions
    ∧ (getOrCreateModel db name now).2.tags = db.tags
    ∧ (getOrCreateModel db name now).2.nextVersionId = db.nextVersionId := by
  unfold getOrCreateModel
  cases db.models.find? (fun m => m.name == name) <;> simp

theorem saveModelMetadata_versions (db : Db) (info : ModelInfo) (now : String) :
    (saveModelMetadata db info now).versions = db.versions ++
      [{ id := db.nextVersionId
       , model_id := (getOrCreateModel db info.name now).1
       , version := info.version, descr := info.descr
       , storage_path := info.storage_path, file_size_bytes := info.file_size
       , created_at := info.created_at }] := by
  obtain ⟨h1, _h2, h3⟩ := getOrCreateModel_fields db info.name now
  unfold saveModelMetadata
  by_cases ht : info.tags.isEmpty <;> simp [ht, h1, h3]

theorem foldl_versions_mono {α : Type} (f : Db → α → Db)
    (hf : ∀ d a, ∃ t, (f d a).versions = d.versions ++ t) :
    ∀ (l : List α) (d : Db), ∃ t, (l.foldl f d).versions = d.versions ++ t := by
  intro l
  induction l with
  | nil =>
      intro d
      exact ⟨[], by simp⟩
  | cons a rest ih =>
      intro d
      obtain ⟨t1, h1⟩ := hf d a
      obtain ⟨t2, h2⟩ := ih (f d a)
      exact ⟨t1 ++ t2, by rw [List.foldl_cons, h2, h1, List.append_assoc]⟩

theorem dbSaveMetadataOp_versions_mono (s : DbSys) (now : String) :
    ∃ t, (dbSaveMetadataOp s now).db.versions = s.db.versions ++ t := by
  unfold dbSaveMetadataOp
  apply foldl_versions_mono
  intro d e
  cases dget (if s.regSame then s.reg else s.snap) e.1 with
  | none =>
      apply foldl_versions_mono
      intro d2 info
      exact ⟨_, saveModelMetadata_versions d2 info now⟩
  | some slid =>
      apply foldl_versions_mono
      intro d2 info
      by_cases hc :
          ((heapGet s.heap slid).map (fun r => r.version)).contains info.version
            = true
      · exact ⟨[], by rw [if_pos hc, List.append_nil]⟩
      · exact ⟨_, by rw [if_neg hc]; exact saveModelMetadata_versions d2 info now⟩

theorem dbSysDeleteModel_versions_mono (s : DbSys) (name : String)
    (v : Option String) (now : String) (s1 : DbSys)
    (h : dbSysDeleteModel s name v now = .ok s1) :
    ∃ t, s1.db.versions = s.db.versions ++ t := by
  unfold dbSysDeleteModel at h
  cases hg : getModelInfo (regIndex s) name v with
  | error e =>
      rw [hg] at h
      simp at h
  | ok info =>
      rw [hg] at h
      simp only [Except.ok.injEq] at h
      obtain ⟨t, ht⟩ := dbSaveMetadataOp_versions_mono
        { s with
            storage := lsDeleteModel s.storage info.storage_path,
            heap := s.heap ++ [(heapGet s.heap ((dget s.reg name).getD 0)).filter
              (fun r => r.version ≠ info.version)],
            reg := if ((heapGet s.heap ((dget s.reg name).getD 0)).filter
                (fun r => r.version ≠ info.version)).isEmpty
              then ddel (dset s.reg name s.heap.length) name
              else dset s.reg name s.heap.length } now
      refine ⟨t, ?_⟩
      rw [← h]
      exact ht

/-! Helper lemma: the JSON document always holds the last-persisted index. -/

theorem runOps_doc_tracks (ops : List Op) :
    ∀ st : JRegistry, st.doc = some st.metadata →
      (runOps st ops).doc = some (runOps st ops).metadata := by
  induction ops with
  | nil =>
      intro st h
      simpa [runOps] using h
  | cons op rest ih =>
      intro st h
      have hrun : runOps st (op :: rest) = runOps (applyOp st op) rest := by
        simp [runOps, List.foldl_cons]
      rw [hrun]
      apply ih
      cases op with
      | save art name descr tags now =>
          exact jSaveModel_doc st art name descr tags now
      | del name v =>
          show (jDeleteModel st name v).doc = some (jDeleteModel st name v).metadata
          unfold jDeleteModel
          cases hg : getModelInfo st.metadata name v with
          | error e =>
              rw [jDeleteModelF_notFound hg]
              exact h
          | ok info =>
              rw [jDeleteModelF_ok hg]
              simp [delPost]

/-! Helper lemmas: `max(..., key=int)` picks a numerically maximal record. -/

theorem maxByVersion_fold_spec (tl : List ModelInfo) :
    ∀ a : ModelInfo,
      pyInt a.version ≤ pyInt ((tl.foldl (fun best x =>
        if pyInt x.version > pyInt best.version then x else best) a).version)
      ∧ ∀ x ∈ tl, pyInt x.version ≤ pyInt ((tl.foldl (fun best x =>
          if pyInt x.version > pyInt best.version then x else best) a).version) := by
  induction tl with
  | nil =>
      intro a
      exact ⟨le_refl _, by simp⟩
  | cons b tl2 ih =>
      intro a
      have hstep : pyInt a.version ≤ pyInt ((if pyInt b.version > pyInt a.version
          then b else a).version) := by
        split
        · omega
        · exact le_refl _
      have hstepb : pyInt b.version ≤ pyInt ((if pyInt b.version > pyInt a.version
          then b else a).version) := by
        split
        · exact le_refl _
        · omega
      constructor
      · calc pyInt a.version
            ≤ pyInt ((if pyInt b.version > pyInt a.version then b else a).version) :=
              hstep
          _ ≤ _ := (ih _).1
      · intro x hx
        rcases List.mem_cons.mp hx with rfl | hx'
        · calc pyInt x.version
              ≤ pyInt ((if pyInt x.version > pyInt a.version then x else a).version) :=
                hstepb
            _ ≤ _ := (ih _).1
        · exact (ih _).2 x hx'

theorem maxByVersion_ge (recs : List ModelInfo) (r : ModelInfo)
    (h : maxByVersion recs = some r) :
    ∀ x ∈ recs, pyInt x.version ≤ pyInt r.version := by
  cases recs with
  | nil => cases h
  | cons a tl =>
      have hr : r = tl.foldl (fun best x =>
          if pyInt x.version > pyInt best.version then x else best) a := by
        simpa [maxByVersion] using h.symm
      intro x hx
      rcases List.mem_cons.mp hx with rfl | hx'
      · rw [hr]
        exact (maxByVersion_fold_spec tl x).1
      · rw [hr]
        exact (maxByVersion_fold_spec tl a).2 x hx'

/-! Claim theorems. -/

/-- C1: evaluated at the failing input. On a freshly constructed
database-backed registry (empty database), `save_model("m")` assigns
version "1" and puts the record in the in-memory index, yet inserts no
row at all into the database — and a second save inserts none either:
`load_metadata` stores the very dict the Registry mutates as the
backend's snapshot, and the shallow `copy()` in `save_metadata` shares
the per-name lists, so the diff believes every new version is already
present. This contradicts the claim that the record (n, v) is present in
the database after `save` invokes `save_metadata`. -/
theorem C1_database_save_inserts_no_rows :
    regIndex exDbS1 = [("m",
      [{ name := "m", version := "1", descr := "", tags := []
       , created_at := "t1", storage_path := "m/v1/model.pkl"
       , file_size := 1 }])]
    ∧ exDbS1.db.versions = []
    ∧ exDbS1.db.models = []
    ∧ exDbS2.db.versions = [] := by decide

/-- C2: evaluated at the failing input. Registry A (database variant)
saves two versions of "m"; its in-memory index holds both records, but
the database received no rows, so Registry B constructed against the
same locations loads an empty index — B's `list()` does not equal A's
final in-memory state. -/
theorem C2_restart_loses_database_records :
    ((dget (regIndex exDbS2) "m").getD []).length = 2
    ∧ regIndex exDbRestart = []
    ∧ regIndex exDbRestart ≠ regIndex exDbS2 := by decide

/-- C3 counterexample: on a fresh registry, the first save of "m"
assigns "1" and the next save would assign "2"; after that second save
and a `delete_model("m", "2")`, the following save assigns "2" again —
so a version number is reassigned after the record holding it (the
numeric maximum) was deleted, contradicting the claim. -/
theorem C3_version_reassigned_after_delete :
    jSaveVersion exJ1 "m" = "2"
    ∧ versionsOf exJ2 "m" = ["1", "2"]
    ∧ versionsOf exJ3 "m" = ["1"]
    ∧ jSaveVersion exJ3 "m" = "2" := by decide

/-- C3 (amended): the version assigned by `save` numerically exceeds
every version currently present for the name (so versions are unique
among present records, and strictly increasing while nothing of that
name is deleted), and over any operation sequence containing no delete
on the name itself the recorded versions are the consecutive strings
"1", ..., "k", growing by one per save of that name. A version number
can be reassigned once the record holding the name's numeric maximum is
deleted. -/
theorem C3_version_assignment :
    (∀ (md : Index) (name : String) (recs : List ModelInfo),
      dget md name = some recs → ∀ r ∈ recs,
        pyInt r.version < pyInt (getNextVersion md name))
    ∧ (∀ (ops : List Op) (st : JRegistry) (n : String) (k0 : Nat),
        versionsOf st n = (List.range' 1 k0).map natToString →
        noDeleteOn n ops →
        versionsOf (runOps st ops) n
          = (List.range' 1 (k0 + countSaves n ops)).map natToString) := by
  exact ⟨fun md name recs h r hr => getNextVersion_gt md name recs h hr,
         fun ops st n k0 h hnd => versions_consecutive ops st n k0 h hnd⟩

/-- C3 witness: the amended statement applied at concrete inputs. -/
theorem C3_version_assignment_witness :
    pyInt exRec2.version < pyInt (getNextVersion exMd210 "m")
    ∧ versionsOf (runOps exJ0
        [Op.save [7] "m" "" [] "t1", Op.save [8] "m" "" [] "t2"]) "m"
      = (List.range' 1 (0 + 2)).map natToString :=
  ⟨C3_version_assignment.1 exMd210 "m" [exRec2, exRec10] (by decide)
      exRec2 (by decide),
   C3_version_assignment.2
      [Op.save [7] "m" "" [] "t1", Op.save [8] "m" "" [] "t2"] exJ0 "m" 0
      (by decide)
      (by
        intro op hop
        cases op with
        | save a b c d e => trivial
        | del m v => simp at hop)⟩

/-- C4 counterexample: the record written by the first save of "m" has
storage path "m/v1/model.pkl", not the claimed "m/v1/artifact". -/
theorem C4_storage_path_not_artifact :
    ((dget exJ1.metadata "m").getD []).map (fun r => r.storage_path)
      = ["m/v1/model.pkl"]
    ∧ "m/v1/model.pkl" ≠ "m/v1/artifact" := by decide

/-- C4 (amended): `save_model` derives the storage path
`{name}/v{version}/model.pkl`, records it in the new record's
`storage_path`, and writes the artifact bytes at exactly that path
relative to the storage backend's base directory. -/
theorem C4_storage_path_convention (st : JRegistry) (art : Art)
    (name descr : String) (tags : List (String × PyVal)) (now : String) :
    dget (jSaveModel st art name descr tags now).metadata name
      = some (((dget st.metadata name).getD [])
          ++ [savedInfo st art name descr tags now])
    ∧ (savedInfo st art name descr tags now).storage_path
      = name ++ "/v" ++ getNextVersion st.metadata name ++ "/model.pkl"
    ∧ lsLoadModel (jSaveModel st art name descr tags now).storage
        (savedPath st name) = some art := by
  refine ⟨jSaveModel_metadata_at st art name descr tags now, rfl, ?_⟩
  rw [jSaveModel_storage]
  simp [lsLoadModel, lsSaveModel, dget_dset_self]

/-- C5 counterexample: with the flat-file variant, a record whose tag
value is the number 42 round-trips through `save_metadata` /
`load_metadata` unchanged — the value read back is the number 42, not
the string "42", so tag values are not coerced to string by every
metadata-backend variant. -/
theorem C5_json_tag_value_not_stringified :
    jsonLoadMetadata (jsonSaveMetadata none [("m", [exInfoTag])])
      = [("m", [exInfoTag])]
    ∧ dget exInfoTag.tags "k" = some (PyVal.int 42)
    ∧ PyVal.int 42 ≠ PyVal.str "42" := by decide

/-- C5 (amended): only the relational variant coerces tag values with
`str(...)`: its `save_model_metadata` stores every tag row with value
`str(original)` (shown by the exact shape of the resulting tag table),
and its `load_metadata` returns those strings — e.g. the numeric tag 42
comes back as the string "42". The flat-file variant stores and returns
the index unchanged, so non-string tag values survive as themselves. -/
theorem C5_tag_coercion_by_variant :
    (∀ (fs : Option Index) (idx : Index),
      jsonLoadMetadata (jsonSaveMetadata fs idx) = idx)
    ∧ (∀ (db : Db) (info : ModelInfo) (now : String),
        (info.tags.map Prod.fst).Nodup →
        (saveModelMetadata db info now).tags
          = db.tags.filter (fun r =>
              !(r.model_version_id == db.nextVersionId
                && info.tags.any (fun kv => r.tag_key == kv.1)))
            ++ info.tags.map (fun kv =>
                { model_version_id := db.nextVersionId
                , tag_key := kv.1, tag_value := pyStr kv.2 }))
    ∧ loadMetadata exDbTag = [("m", [exInfoTagStr])] := by
  refine ⟨fun fs idx => rfl, ?_, by decide⟩
  intro db info now hnd
  obtain ⟨h1, h2, h3⟩ := getOrCreateModel_fields db info.name now
  unfold saveModelMetadata
  by_cases ht : info.tags.isEmpty = true
  · have hnil : info.tags = [] := by
      cases hl : info.tags
      · rfl
      · rw [hl] at ht; simp [List.isEmpty] at ht
    rw [if_pos ht]
    simp [hnil, h2]
  · rw [if_neg ht]
    show info.tags.foldl _ _ = _
    rw [h2, h3]
    exact foldl_insertOrReplaceTagRows db.nextVersionId info.tags db.tags hnd

/-- C5 witness: the amended statement applied at a concrete record with
a numeric tag value. -/
theorem C5_tag_coercion_by_variant_witness :
    (saveModelMetadata emptyDb exInfoTag "t0").tags
      = emptyDb.tags.filter (fun r =>
          !(r.model_version_id == emptyDb.nextVersionId
            && exInfoTag.tags.any (fun kv => r.tag_key == kv.1)))
        ++ exInfoTag.tags.map (fun kv =>
            { model_version_id := emptyDb.nextVersionId
            , tag_key := kv.1, tag_value := pyStr kv.2 }) :=
  C5_tag_coercion_by_variant.2.1 emptyDb exInfoTag "t0" (by decide)

/-- C6: `save_model` writes the artifact before touching the index or
the metadata store. If the storage write fails, the whole state is
unchanged (no partial record, metadata store untouched); if the storage
write succeeds but the metadata persistence fails, the in-memory index
already holds the new record while the document still holds the old one
(no rollback); on full success the document is the updated index. -/
theorem C6_save_failure_semantics (st : JRegistry) (art : Art)
    (name descr : String) (tags : List (String × PyVal)) (now : String) :
    (∀ b : Bool, jSaveModelF st art name descr tags now false b
      = SaveOutcome.storageFail st)
    ∧ jSaveModelF st art name descr tags now true false
      = SaveOutcome.metaFail
          { jSaveModel st art name descr tags now with doc := st.doc }
    ∧ dget (jSaveModel st art name descr tags now).metadata name
      = some (((dget st.metadata name).getD [])
          ++ [savedInfo st art name descr tags now])
    ∧ (jSaveModel st art name descr tags now).doc
      = some (jSaveModel st art name descr tags now).metadata := by
  refine ⟨fun b => rfl, rfl,
    jSaveModel_metadata_at st art name descr tags now,
    jSaveModel_doc st art name descr tags now⟩

/-- C7: version resolution is numeric, never lexicographic — with
versions "2" and "10" present, `get_latest_version` returns "10" and
`load` without a version resolves the record with the numerically
greatest version; both fail with the not-found error when the name is
absent, and `load` with an explicit version fails with the not-found
error when that version is absent among the name's records. -/
theorem C7_version_resolution :
    getLatestVersion exMd210 "m" = .ok "10"
    ∧ getModelInfo exMd210 "m" none = .ok exRec10
    ∧ (∀ (md : Index) (name : String), dget md name = none →
        getLatestVersion md name = .error (notFoundMsg name)
        ∧ ∀ v : Option String,
            getModelInfo md name v = .error (notFoundMsg name))
    ∧ (∀ (md : Index) (name : String) (recs : List ModelInfo) (v : String),
        dget md name = some recs →
        recs.find? (fun r => r.version == v) = none →
        getModelInfo md name (some v) = .error (versionNotFoundMsg name v))
    ∧ (∀ (recs : List ModelInfo) (r : ModelInfo), maxByVersion recs = some r →
        ∀ x ∈ recs, pyInt x.version ≤ pyInt r.version) := by
  refine ⟨rfl, rfl, ?_, ?_, maxByVersion_ge⟩
  · intro md name h
    exact ⟨by simp [getLatestVersion, h],
      fun v => by cases v <;> simp [getModelInfo, h]⟩
  · intro md name recs v h1 h2
    simp [getModelInfo, h1, h2]

/-- C7 witness: the not-found and numeric-maximum clauses applied at
concrete inputs. -/
theorem C7_version_resolution_witness :
    getLatestVersion [] "m" = .error (notFoundMsg "m")
    ∧ getModelInfo exMd210 "m" (some "3")
      = .error (versionNotFoundMsg "m" "3")
    ∧ pyInt exRec2.version ≤ pyInt exRec10.version :=
  ⟨(C7_version_resolution.2.2.1 [] "m" (by decide)).1,
   C7_version_resolution.2.2.2.1 exMd210 "m" [exRec2, exRec10] "3"
     (by decide) (by decide),
   C7_version_resolution.2.2.2.2 [exRec2, exRec10] exRec10 (by rfl)
     exRec2 (by decide)⟩

/-- C8 counterexample: `delete_model` calls the storage backend's delete
BEFORE removing the record from the index — when the storage delete
fails, the registry state is unchanged and the record is still present
in the index, contradicting the claimed order (index removal first) and
its consequence (record already removed on storage failure). -/
theorem C8_storage_delete_precedes_index_removal :
    jDeleteModelF exSt8 "m" none false = DelOutcome.storageFail exSt8
    ∧ dget exSt8.metadata "m" = some [exRec2] := by decide

/-- C8 (amended): `delete_model` resolves the target record exactly as
`load` does (same resolution function, same errors), then deletes the
artifact from storage FIRST, then removes the record from the index,
drops the empty name key, and persists the full updated index;
consequently, if the storage delete fails, the index (and the whole
registry state) is unchanged. -/
theorem C8_delete_order (st : JRegistry) (name : String) (v : Option String) :
    (∀ e : String, getModelInfo st.metadata name v = .error e →
      ∀ b : Bool, jDeleteModelF st name v b = .notFound e st)
    ∧ (∀ info : ModelInfo, getModelInfo st.metadata name v = .ok info →
        jDeleteModelF st name v false = .storageFail st
        ∧ jDeleteModelF st name v true = .ok (delPost st name info)) := by
  exact ⟨fun e he b => jDeleteModelF_notFound he b,
         fun info hi => ⟨jDeleteModelF_storage_fault hi, jDeleteModelF_ok hi⟩⟩

/-- C8 witness: the amended statement applied at a concrete state. -/
theorem C8_delete_order_witness :
    jDeleteModelF exSt8 "m" none false = DelOutcome.storageFail exSt8
      ∧ jDeleteModelF exSt8 "m" none true = .ok (delPost exSt8 "m" exRec2) :=
  (C8_delete_order exSt8 "m" none).2 exRec2 (by rfl)

/-- C9: the flat-file metadata store returns the empty index exactly
when no document exists; loading an existing document returns it
verbatim (no other default); every `save_metadata` rewrites the whole
document with the full index regardless of prior contents; and along
any sequence of registry operations the document always equals the full
current index (persistence is synchronous and whole-document). -/
theorem C9_json_whole_document (st : JRegistry) (ops : List Op) :
    jsonLoadMetadata none = []
    ∧ (∀ (fs : Option Index) (idx : Index), jsonSaveMetadata fs idx = some idx)
    ∧ (∀ d : Index, jsonLoadMetadata (some d) = d)
    ∧ (st.doc = some st.metadata →
        (runOps st ops).doc = some (runOps st ops).metadata) := by
  exact ⟨rfl, fun fs idx => rfl, fun d => rfl,
    fun h => runOps_doc_tracks ops st h⟩

/-- C9 witness: the synchronous-persistence clause applied at a concrete
state and operation sequence. -/
theorem C9_json_whole_document_witness :
    (runOps exSt8 [Op.save [9] "m" "" [] "t9", Op.del "m" (some "2")]).doc
      = some (runOps exSt8
          [Op.save [9] "m" "" [] "t9", Op.del "m" (some "2")]).metadata :=
  (C9_json_whole_document exSt8
    [Op.save [9] "m" "" [] "t9", Op.del "m" (some "2")]).2.2.2 rfl

/-- C10: the database backend's `save_metadata` only ever appends
version rows — the rows present before any call are still present (a
prefix) afterwards; hence `delete_model` on the database variant, which
persists only through `save_metadata`, leaves every existing version
row (including the deleted version's) in the database. The
row-removing operation `delete_model_version` exists and does remove
rows, but no registry operation invokes it. -/
theorem C10_database_rows_non_decreasing :
    (∀ (s : DbSys) (now : String),
      ∃ t, (dbSaveMetadataOp s now).db.versions = s.db.versions ++ t)
    ∧ (∀ (s : DbSys) (name : String) (v : Option String) (now : String)
        (s1 : DbSys), dbSysDeleteModel s name v now = .ok s1 →
        ∃ t, s1.db.versions = s.db.versions ++ t)
    ∧ (deleteModelVersion exDbTag "m" "1").versions = []
    ∧ exDbTag.versions ≠ [] := by
  exact ⟨dbSaveMetadataOp_versions_mono,
    fun s name v now s1 h => dbSysDeleteModel_versions_mono s name v now s1 h,
    by decide, by decide⟩

/-- C10 witness: the delete clause applied at a concrete successful
`delete_model` on the database-backed system. -/
theorem C10_database_rows_non_decreasing_witness :
    ∃ t, exDbDel.db.versions = exDbS1.db.versions ++ t :=
  C10_database_rows_non_decreasing.2.1 exDbS1 "m" none "t3" exDbDel (by rfl)

end ModelReg
